import Mathlib

/-! Formal model of the Tetris game logic implemented in `src/code.py`
(class `TetrisDialog`).  Numeric values (block centroids, board bounds,
the speed multiplier) are modelled as rationals: the source rounds every
centroid to one decimal digit before using it, so all values that matter
are exactly representable.  Python dictionaries keyed by centroids are
modelled as association lists with Python's insertion-order and
overwrite semantics.  Maya scene state (the set of existing block
shapes with their world centroids and shaders) is modelled as a list of
`Block` records.
-/

namespace Tetris

/-- Python's `int()` conversion applied to a rational: truncation toward
zero (floor for non-negative values, ceiling for negative ones). -/
def pyInt (q : ℚ) : ℤ := if q < 0 then ⌈q⌉ else ⌊q⌋

/-- Value stored in `locked_cells_dict` for one cell: the
`parent_transform_name` (the figure, encoded as a number) and the
`child_shape_name` (the block shape, encoded as a number). -/
structure CellInfo where
  parent : ℕ
  child : ℕ
deriving DecidableEq

/-- Board cell address: an (x, y) centroid pair, as used for the keys of
`locked_cells_dict`. -/
abbrev Cell := ℚ × ℚ

/-- Model of `locked_cells_dict`: an insertion-ordered association list
from centroid cells to cell records. -/
abbrev LockedCells := List (Cell × CellInfo)

/-- Python dictionary lookup `d[c]` / membership `c in d.keys()`. -/
def lookupCell : LockedCells → Cell → Option CellInfo
  | [], _ => none
  | kv :: d, c => if kv.1 = c then some kv.2 else lookupCell d c

/-- Python dictionary assignment `d[c] = v`: if the key is present its
value is replaced in place, otherwise the binding is appended.  This is
the `result_dict[current_xy_centroid] = temp_dict` operation of
`get_all_child_shapes_xy_centroids_list` and `update_collision_data`. -/
def dictInsert : LockedCells → Cell → CellInfo → LockedCells
  | [], c, v => [(c, v)]
  | kv :: d, c, v => if kv.1 = c then (c, v) :: d else kv :: dictInsert d c v

/-- Python `del d[c]` (for a key known to be present; a no-op when the
key is absent, matching the guarded delete in `update_locked_cells_list`). -/
def dictErase : LockedCells → Cell → LockedCells
  | [], _ => []
  | kv :: d, c => if kv.1 = c then d else kv :: dictErase d c

/-- Board bound `self.min_y = 0` set in `start_game`. -/
def min_y : ℚ := 0

/-- Board bound `self.max_y = 24` set in `start_game`. -/
def max_y : ℚ := 24

/-- Board bound `self.min_x = -5` set in `start_game`. -/
def min_x : ℚ := -5

/-- Board bound `self.max_x = 5` set in `start_game`. -/
def max_x : ℚ := 5

/-- One block of the moving figure as seen by
`check_figure_update_allowed`: its centroid recorded immediately before
the optimistic transform (`stored_centroids_before_translate`) and its
centroid read back after the transform. -/
structure BlockPair where
  prev : Cell
  cur : Cell
deriving DecidableEq

/-- The collision condition of `check_figure_update_allowed`:
`tuple(child_cords) in locked_cells_dict.keys() and
mesh_name != locked_cells_dict[child_cords]["parent_transform_name"]`. -/
def collides (mesh : ℕ) (locked : LockedCells) (c : Cell) : Bool :=
  match lookupCell locked c with
  | some info => if info.parent = mesh then false else true
  | none => false

/-- Model of `TetrisDialog.check_figure_update_allowed` (the per-block
validation loop).  Returns `(transform_update_allowed, x_axis_collision)`.
The source's early bare-`False` return for a figure without child shapes
is unreachable from `move_figure` (every figure has blocks) and is not
modelled; the empty list corresponds to the loop falling through to
`return True, False`. -/
def check_figure_update_allowed (mesh : ℕ) (locked : LockedCells) :
    List BlockPair → Bool × Bool
  | [] => (true, false)
  | b :: rest =>
    if collides mesh locked b.cur then
      if b.cur.2 = b.prev.2 then (false, true) else (false, false)
    else if ¬ (min_y < b.cur.2 ∧ b.cur.2 < max_y) then (false, false)
    else if ¬ (min_x < b.cur.1 ∧ b.cur.1 < max_x) then (false, true)
    else check_figure_update_allowed mesh locked rest

/-- One cube of a figure: its shape name (a number) and the offset of
its centroid from the figure's pivot. -/
structure FigBlock where
  id : ℕ
  ox : ℚ
  oy : ℚ
deriving DecidableEq

/-- A falling figure: its transform name, pivot position, the
`translateX` / `translateY` / `rotateZ` attribute values, and its
blocks.  `cmds.xform(..., centerPivots=True)` centres the pivot, so a
block's world centroid is pivot + translation + (rotation applied to the
block's offset). -/
structure Figure where
  name : ℕ
  px : ℚ
  py : ℚ
  tx : ℚ
  ty : ℚ
  rz : ℚ
  blocks : List FigBlock
deriving DecidableEq

/-- Rotation of an offset about the z axis by `deg` degrees.  The game
only ever sets the `rotateZ` attribute to multiples of 90, so only those
cases are given geometric meaning; other angles leave the offset
unchanged (they never occur). -/
def rotZ (deg : ℚ) (p : ℚ × ℚ) : ℚ × ℚ :=
  if deg.den = 1 then
    if deg.num % 360 = 0 then p
    else if deg.num % 360 = 90 then (-p.2, p.1)
    else if deg.num % 360 = 180 then (-p.1, -p.2)
    else if deg.num % 360 = 270 then (p.2, -p.1)
    else p
  else p

/-- World (x, y) centroid of one block of a figure, as returned by
`get_shape_xy_centroid` after the figure's current transform. -/
def centroid (f : Figure) (b : FigBlock) : Cell :=
  (f.px + f.tx + (rotZ f.rz (b.ox, b.oy)).1,
   f.py + f.ty + (rotZ f.rz (b.ox, b.oy)).2)

/-- The `direction` string argument of `move_figure`: which transform
attribute the move changes. -/
inductive Direction where
  | translateX
  | translateY
  | rotateZ
deriving DecidableEq

/-- Model of `cmds.getAttr(shape + "." + direction)`. -/
def getAttr (f : Figure) : Direction → ℚ
  | .translateX => f.tx
  | .translateY => f.ty
  | .rotateZ => f.rz

/-- Model of `cmds.setAttr(shape + "." + direction, v)`. -/
def setAttr (f : Figure) : Direction → ℚ → Figure
  | .translateX, v => { f with tx := v }
  | .translateY, v => { f with ty := v }
  | .rotateZ, v => { f with rz := v }

/-- Model of `get_all_child_shapes_xy_centroids_list`: insert every
block's current centroid into the dictionary, keyed by centroid, with
the figure as `parent_transform_name` and the block as
`child_shape_name`. -/
def get_all_child_shapes_xy_centroids_list (f : Figure) (d : LockedCells) :
    LockedCells :=
  f.blocks.foldl (fun acc b => dictInsert acc (centroid f b) ⟨f.name, b.id⟩) d

/-- Model of `update_locked_cells_list`: delete every key of
`cleanup_previous_locked_cells` that is present, then re-insert the
figure's current centroids. -/
def update_locked_cells_list (f : Figure) (cleanup : List Cell)
    (d : LockedCells) : LockedCells :=
  get_all_child_shapes_xy_centroids_list f (cleanup.foldl dictErase d)

/-- Result of one `move_figure` call: the figure afterwards, the updated
`locked_cells_dict`, the two values returned by
`check_figure_update_allowed`, the `go_next_figure` flag it sets, and
its `return_y_collided` return value. -/
structure MoveResult where
  fig : Figure
  locked : LockedCells
  allowed : Bool
  x_axis_collision : Bool
  go_next_figure : Bool
  return_y_collided : Bool
deriving DecidableEq

/-- Model of `TetrisDialog.move_figure`: read the attribute, record the
pre-move centroids, optimistically apply the transform, validate, and on
rejection set the attribute back to the recorded value; a rejection that
is not an x-axis collision sets `go_next_figure` and reports a vertical
collision.  The early returns for a missing active figure are not
modelled (the loop only calls this with a live figure). -/
def move_figure (f : Figure) (dir : Direction) (tv : ℚ)
    (locked : LockedCells) : MoveResult :=
  let current_position := getAttr f dir
  let stored := f.blocks.map (fun b => centroid f b)
  let f1 := setAttr f dir (current_position + tv)
  let pairs := f.blocks.map (fun b => BlockPair.mk (centroid f b) (centroid f1 b))
  let chk := check_figure_update_allowed f.name locked pairs
  let f2 := if chk.1 = true then f1 else setAttr f1 dir current_position
  let locked2 := update_locked_cells_list f2 stored locked
  ⟨f2, locked2, chk.1, chk.2, !chk.1 && !chk.2, !chk.1 && !chk.2⟩

/-- One locked block in the Maya scene: shape name, owning figure, world
centroid and shader, as recorded by `update_collision_data` into
`locked_cells_dict`. -/
structure Block where
  id : ℕ
  fig : ℕ
  x : ℚ
  y : ℚ
  shader : ℕ
deriving DecidableEq

/-- The locked part of the Maya scene: all existing block shapes. -/
abbrev Scene := List Block

/-- Model of `update_collision_data`: rebuild `locked_cells_dict` from
the scene, inserting every block keyed by its centroid. -/
def sceneDict (s : Scene) : LockedCells :=
  s.foldl (fun acc b => dictInsert acc (b.x, b.y) ⟨b.fig, b.id⟩) []

/-- The distinct values of a list in first-occurrence order: the key
iteration order of a Python dictionary populated in list order. -/
def firstOccur : List ℚ → List ℚ
  | [] => []
  | y :: rest => y :: (firstOccur rest).filter (fun z => z ≠ y)

/-- The y values of the `stash` dictionary built by
`remove_complete_lines`, in iteration order. -/
def rowKeys (s : Scene) : List ℚ := firstOccur (s.map (fun b => b.y))

/-- The `stash[y]` list of `remove_complete_lines`: the shape names of
the blocks whose centroid row is `y`, in dictionary order. -/
def idsAtRow : Scene → ℚ → List ℕ
  | [], _ => []
  | b :: s, y => if b.y = y then b.id :: idsAtRow s y else idsAtRow s y

/-- The shaders of the blocks whose centroid row is `y`, in the same
order as `idsAtRow`. -/
def shadersAtRow : Scene → ℚ → List ℕ
  | [], _ => []
  | b :: s, y => if b.y = y then b.shader :: shadersAtRow s y else shadersAtRow s y

/-- Model of `check_shapes_have_same_shader` on the shader assignment of
the given shapes: true when every shape carries the same shader as the
first one.  For an empty list the source returns Python `None`, which
the caller treats as false. -/
def check_shapes_have_same_shader : List ℕ → Bool
  | [] => false
  | h :: t => t.all (fun sh => sh == h)

/-- Deletion of the listed shapes from the scene (the `cmds.delete`
loop of `remove_shapes_line`). -/
def deleteIds (ids : List ℕ) : Scene → Scene
  | [] => []
  | b :: s => if b.id ∈ ids then deleteIds ids s else b :: deleteIds ids s

/-- The gravity shift applied to one block by `remove_shapes_line`:
`cmds.move(-1, shape, y=True, relative=True)` for every block whose row
is strictly above the cleared line, identity otherwise. -/
def shiftBlock (lineY : ℚ) (b : Block) : Block :=
  if lineY < b.y then { b with y := b.y - 1 } else b

/-- The gravity shift of `remove_shapes_line` applied to a whole scene. -/
def shiftAbove (lineY : ℚ) (s : Scene) : Scene := s.map (shiftBlock lineY)

/-- Scene effect of `remove_shapes_line`: delete the given shapes, then
move every remaining block that lies strictly above the cleared line
down by one row. -/
def remove_shapes_line_scene (ids : List ℕ) (lineY : ℚ) (s : Scene) : Scene :=
  shiftAbove lineY (deleteIds ids s)

/-- The game state touched by the line-clear sweep: the scene, the score
shown by `points_label`, the speed multiplier and
`amount_of_completed_lines`. -/
structure SweepState where
  scene : Scene
  points : ℤ
  speed : ℚ
  lines : ℕ
deriving DecidableEq

/-- Model of `TetrisDialog.remove_shapes_line`: delete the row's shapes,
shift everything above down one row, award
`int(100 * (10 - speed_multiplier * 5))` points (doubled for a
single-colour line), and increment `amount_of_completed_lines`. -/
def remove_shapes_line (ids : List ℕ) (lineY : ℚ) (single : Bool)
    (st : SweepState) : SweepState :=
  let scene2 := remove_shapes_line_scene ids lineY st.scene
  let earned0 := pyInt (100 * (10 - st.speed * 5))
  let earned := if single then 2 * earned0 else earned0
  ⟨scene2, st.points + earned, st.speed, st.lines + 1⟩

/-- Model of `TetrisDialog.remove_complete_lines`: group the locked
cells by row into `stash` (computed once, up front), then for every row
of the stash holding exactly 10 shapes, clear that row with
`remove_shapes_line`, checking the single-colour bonus on the stashed
shapes. -/
def remove_complete_lines (st : SweepState) : SweepState :=
  (rowKeys st.scene).foldl
    (fun acc y =>
      let ids := idsAtRow st.scene y
      if ids.length = 10 then
        remove_shapes_line ids y
          (check_shapes_have_same_shader (shadersAtRow st.scene y)) acc
      else acc)
    st

/-- The centroid cells of the blocks in row `y`, in scene order. -/
def cellsAtRow : Scene → ℚ → List Cell
  | [], _ => []
  | b :: s, y => if b.y = y then (b.x, b.y) :: cellsAtRow s y else cellsAtRow s y

/-- Number of distinct elements of a list of cells. -/
def distinctCount : List Cell → ℕ
  | [] => 0
  | c :: r => (if c ∈ r then 0 else 1) + distinctCount r

/-- Number of distinct occupied cells of the grid in row `y` (the
number of keys of `locked_cells_dict` with that row). -/
def occupiedCellsInRow (s : Scene) (y : ℚ) : ℕ := distinctCount (cellsAtRow s y)

/-- Model of `check_default_positions_are_locked`: true when no key of
`locked_cells_dict` is the spawn cell (-0.5, 20.5). -/
def check_default_positions_are_locked (locked : LockedCells) : Bool :=
  locked.all (fun kv => if kv.1.1 = -0.5 ∧ kv.1.2 = 20.5 then false else true)

/-- The speed-multiplier update performed at the top of every iteration
of `continue_game`: while `amount_of_completed_lines` is a non-zero
multiple of 10 and the multiplier is still positive, subtract 0.2. -/
def speed_update (lines : ℕ) (speed : ℚ) : ℚ :=
  if lines ≠ 0 ∧ lines % 10 = 0 ∧ 0 < speed then speed - 0.2 else speed

/-- The mutable state carried between iterations of the `continue_game`
loop. -/
structure GameState where
  speed : ℚ
  lines : ℕ
  counter : ℕ
  go_next : Bool
  game_over : Bool
  paused : Bool
  scene : Scene
  points : ℤ
  active : ℕ
deriving DecidableEq

/-- Result of one iteration of the `continue_game` while-loop: the new
state, whether the loop runs again (false on `break`), and whether the
gravity branch issued an automatic downward move this iteration. -/
structure IterResult where
  state : GameState
  loops_again : Bool
  gravity_moved : Bool

/-- Model of one iteration of the `continue_game` while-loop.  `mv` is
the state effect of the gravity call `move_figure("translateY")` (it is
only invoked when the drop-tick condition fires); `newFig` is the name
the random spawn would give the next figure.  The iteration: apply the
speed update (resetting `move_counter` when it fires); if a new figure
is due and the spawn cell is locked, set `is_game_over` and break;
otherwise spawn (running `remove_complete_lines` first) when due; sleep;
increment `move_counter`; when `move_counter == int(30*speed_multiplier)`
perform the gravity move and reset the counter; break if paused. -/
def continue_game_iter (mv : GameState → GameState) (newFig : ℕ)
    (gs0 : GameState) : IterResult :=
  let gs1 := if gs0.lines ≠ 0 ∧ gs0.lines % 10 = 0 ∧ 0 < gs0.speed
             then { gs0 with speed := gs0.speed - 0.2, counter := 0 }
             else gs0
  if gs1.go_next = true ∧
     check_default_positions_are_locked (sceneDict gs1.scene) = false then
    ⟨{ gs1 with game_over := true }, false, false⟩
  else
    let gs2 :=
      if gs1.go_next then
        let sw := remove_complete_lines ⟨gs1.scene, gs1.points, gs1.speed, gs1.lines⟩
        { gs1 with scene := sw.scene, points := sw.points, lines := sw.lines,
                   active := newFig, go_next := false }
      else { gs1 with go_next := false }
    let gs3 := { gs2 with counter := gs2.counter + 1 }
    if (gs3.counter : ℤ) = pyInt (30 * gs3.speed) then
      let gs4 := { mv gs3 with counter := 0 }
      ⟨gs4, !gs4.paused, true⟩
    else
      ⟨gs3, !gs3.paused, false⟩

/-- Iterated `continue_game` loop: the state after `n` iterations. -/
def run_iters (mv : GameState → GameState) (newFig : ℕ) :
    ℕ → GameState → GameState
  | 0, gs => gs
  | n + 1, gs => run_iters mv newFig n (continue_game_iter mv newFig gs).state

/-- Concrete one-block figure sitting just above the floor, used to
exhibit a rejected downward move. -/
def figW2 : Figure := ⟨0, 0, 0.5, 0, 0, 0, [⟨1, 0, 0⟩]⟩

/-- Concrete block at row 2, column 0. -/
def bW1 : Block := ⟨0, 0, 0, 2, 0⟩

/-- Concrete block at row 3, column 0. -/
def bW2 : Block := ⟨1, 0, 0, 3, 0⟩

/-- Concrete one-block figure for which a 90-degree rotation pushes the
block out of the horizontal range while changing its row. -/
def figW6 : Figure := ⟨0, 4, 2, 0, 0, 0, [⟨5, 0.5, -1.5⟩]⟩

/-- Concrete loop state whose scene holds a locked block exactly on the
spawn cell (-0.5, 20.5) while a new figure is due. -/
def gsW9 : GameState := ⟨0.3, 0, 0, true, false, false, [⟨0, 0, -0.5, 20.5, 0⟩], 0, 7⟩

/-- Concrete loop state with a negative speed multiplier, as reached
after two decrements from the initial 0.3. -/
def gsW10 : GameState := ⟨-0.1, 20, 0, false, false, false, [], 0, 0⟩

/-- Centroid x coordinate of board column `k` (for k = 0 .. 9 these are
the ten in-bounds columns -4.5, -3.5, ..., 4.5). -/
def xcol (k : ℕ) : ℚ := -(9 : ℚ) / 2 + k

/-- A complete row of 10 blocks at height `y` with consecutive shape
names starting at `baseId`, all owned by figure `figId`. -/
def cexRow10 (y : ℚ) (baseId : ℕ) (figId : ℕ) : Scene :=
  (List.range 10).map (fun k => ⟨baseId + k, figId, xcol k, y, 0⟩)

/-- Grid state with two adjacent complete rows (1.5 and 2.5, inserted
into the dictionary in that order) and two half-full rows above them
(3.5 in columns 0-4, 4.5 in columns 5-9). -/
def cexScene : Scene :=
  cexRow10 1.5 0 0 ++ cexRow10 2.5 10 1 ++
  ((List.range 5).map (fun k => ⟨20 + k, 2, xcol k, 3.5, 0⟩)) ++
  ((List.range 5).map (fun k => ⟨25 + k, 3, xcol (5 + k), 4.5, 0⟩))

/-- Sweep state holding `cexScene` with the initial speed multiplier. -/
def cexState : SweepState := ⟨cexScene, 0, 0.3, 0⟩

/-- Scene with a single complete row at 0.5 and one block above it. -/
def sceneW4 : Scene :=
  [⟨0, 0, -4.5, 0.5, 0⟩, ⟨1, 0, -3.5, 0.5, 0⟩, ⟨2, 0, -2.5, 0.5, 0⟩,
   ⟨3, 0, -1.5, 0.5, 0⟩, ⟨4, 0, -0.5, 0.5, 0⟩, ⟨5, 1, 0.5, 0.5, 0⟩,
   ⟨6, 1, 1.5, 0.5, 0⟩, ⟨7, 1, 2.5, 0.5, 0⟩, ⟨8, 1, 3.5, 0.5, 0⟩,
   ⟨9, 1, 4.5, 0.5, 0⟩, ⟨10, 2, -4.5, 1.5, 0⟩]

/-- Sweep state holding `sceneW4` with the initial speed multiplier. -/
def stW4 : SweepState := ⟨sceneW4, 0, 0.3, 0⟩

end Tetris

namespace Tetris

theorem check_allowed_bounds (mesh : ℕ) (locked : LockedCells) :
    ∀ blocks : List BlockPair,
      (check_figure_update_allowed mesh locked blocks).1 = true →
      ∀ b ∈ blocks,
        min_x < b.cur.1 ∧ b.cur.1 < max_x ∧ min_y < b.cur.2 ∧ b.cur.2 < max_y := by
  intro blocks
  induction blocks with
  | nil => intro _ b hb; exact absurd hb (List.not_mem_nil b)
  | cons b0 rest ih =>
    intro h b hb
    rw [check_figure_update_allowed] at h
    split at h
    · split at h <;> simp at h
    · split at h
      · simp at h
      · split at h
        · simp at h
        · next hy hx =>
          rw [not_not] at hy hx
          rcases List.mem_cons.mp hb with rfl | hbr
          · exact ⟨hx.1, hx.2, hy.1, hy.2⟩
          · exact ih h b hbr

/-- C1: a move whose validation sees any block outside the open
interval (min_x, max_x) x (min_y, max_y) is rejected, and every
accepted move has all blocks strictly inside those bounds. -/
theorem claim1_bounds_of_accepted (mesh : ℕ) (locked : LockedCells)
    (blocks : List BlockPair) :
    ((check_figure_update_allowed mesh locked blocks).1 = true →
      ∀ b ∈ blocks,
        min_x < b.cur.1 ∧ b.cur.1 < max_x ∧ min_y < b.cur.2 ∧ b.cur.2 < max_y) ∧
    ((∃ b ∈ blocks,
        ¬ (min_x < b.cur.1 ∧ b.cur.1 < max_x ∧ min_y < b.cur.2 ∧ b.cur.2 < max_y)) →
      (check_figure_update_allowed mesh locked blocks).1 = false) := by
  refine ⟨check_allowed_bounds mesh locked blocks, ?_⟩
  rintro ⟨b, hb, hout⟩
  cases hfst : (check_figure_update_allowed mesh locked blocks).1 with
  | false => rfl
  | true => exact absurd (check_allowed_bounds mesh locked blocks hfst b hb) hout

theorem claim1_witness :
    (check_figure_update_allowed 0 [] [⟨(0.5, 23.5), (0.5, 24.5)⟩]).1 = false :=
  (claim1_bounds_of_accepted 0 [] [⟨(0.5, 23.5), (0.5, 24.5)⟩]).2
    ⟨⟨(0.5, 23.5), (0.5, 24.5)⟩, by simp,
     by norm_num [min_x, max_x, min_y, max_y]⟩

theorem setAttr_setAttr (f : Figure) (dir : Direction) (v w : ℚ) :
    setAttr (setAttr f dir v) dir w = setAttr f dir w := by
  cases dir <;> rfl

theorem setAttr_getAttr (f : Figure) (dir : Direction) :
    setAttr f dir (getAttr f dir) = f := by
  cases dir <;> rfl

/-- C2: a rejected move leaves the figure (and hence every block
centroid) exactly as recorded before the attempt: the optimistic
transform followed by the revert is the identity on the figure. -/
theorem claim2_revert_restores_centroids (f : Figure) (dir : Direction)
    (tv : ℚ) (locked : LockedCells)
    (h : (move_figure f dir tv locked).allowed = false) :
    (move_figure f dir tv locked).fig = f ∧
    ∀ b ∈ f.blocks,
      centroid (move_figure f dir tv locked).fig b = centroid f b := by
  have hfig : (move_figure f dir tv locked).fig = f := by
    simp only [move_figure] at h ⊢
    rw [h]
    simp only [Bool.false_eq_true, if_false]
    rw [setAttr_setAttr, setAttr_getAttr]
  exact ⟨hfig, fun b _ => by rw [hfig]⟩

theorem claim2_witness :
    (move_figure figW2 .translateY (-1) []).allowed = false ∧
    (move_figure figW2 .translateY (-1) []).fig = figW2 := by
  have hrej : (move_figure figW2 .translateY (-1) []).allowed = false := by
    norm_num [figW2, move_figure, check_figure_update_allowed, collides,
      lookupCell, centroid, rotZ, setAttr, getAttr, min_y, max_y, min_x, max_x,
      update_locked_cells_list, get_all_child_shapes_xy_centroids_list]
  exact ⟨hrej, (claim2_revert_restores_centroids figW2 .translateY (-1) [] hrej).1⟩

/-- C3 counterexample: with the cleared-line counter stuck at 10 across
two consecutive loop iterations, the decrement fires twice for the same
multiple of 10 and drives the multiplier negative. -/
theorem claim3_counterexample :
    speed_update 10 0.3 = 0.1 ∧ speed_update 10 0.1 = -0.1 ∧
    ((-0.1 : ℚ) < 0) := by
  norm_num [speed_update]

/-- C3 amended: the decrement is applied on every loop iteration on
which the line counter is a non-zero multiple of 10 and the multiplier
is still positive; the multiplier never increases, it never changes
again once it is non-positive, and it always stays strictly above
-0.2 (but it can become negative). -/
theorem claim3_amended (lines : ℕ) (speed : ℚ) :
    (speed ≤ 0 → speed_update lines speed = speed) ∧
    speed_update lines speed ≤ speed ∧
    (-0.2 < speed → -0.2 < speed_update lines speed) := by
  unfold speed_update
  split
  next hcond =>
    exact ⟨fun hle => absurd hcond.2.2 (not_lt.mpr hle), by linarith,
      fun _ => by linarith [hcond.2.2]⟩
  next hcond => exact ⟨fun _ => rfl, le_refl _, fun hgt => hgt⟩

theorem claim3_witness :
    (-0.2 : ℚ) < 0.1 ∧ -0.2 < speed_update 10 0.1 :=
  ⟨by norm_num, (claim3_amended 10 0.1).2.2 (by norm_num)⟩

/-- C5: every block surviving the deletion whose row is strictly above
the cleared line is shifted down by exactly one row and reappears in the
post-sweep scene; for two such blocks in the same column the shift
preserves their relative order. -/
theorem claim5_gravity_shift (ids : List ℕ) (lineY : ℚ) (s : Scene) :
    (∀ b ∈ deleteIds ids s, lineY < b.y →
      (shiftBlock lineY b).y = b.y - 1 ∧
      shiftBlock lineY b ∈ remove_shapes_line_scene ids lineY s) ∧
    (∀ b1 b2, b1 ∈ deleteIds ids s → b2 ∈ deleteIds ids s → b1.x = b2.x →
      lineY < b1.y → lineY < b2.y → b1.y < b2.y →
      (shiftBlock lineY b1).y = b1.y - 1 ∧ (shiftBlock lineY b2).y = b2.y - 1 ∧
      (shiftBlock lineY b1).y < (shiftBlock lineY b2).y) := by
  have hy : ∀ b : Block, lineY < b.y → (shiftBlock lineY b).y = b.y - 1 := by
    intro b hb
    simp [shiftBlock, hb]
  constructor
  · intro b hb hlt
    refine ⟨hy b hlt, ?_⟩
    unfold remove_shapes_line_scene shiftAbove
    exact List.mem_map_of_mem _ hb
  · intro b1 b2 h1 h2 hx ha hb hlt
    refine ⟨hy b1 ha, hy b2 hb, ?_⟩
    rw [hy b1 ha, hy b2 hb]
    linarith

theorem claim5_witness :
    bW1 ∈ deleteIds [] [bW1, bW2] ∧ (1/2 : ℚ) < bW1.y ∧
    (shiftBlock (1/2) bW1).y = bW1.y - 1 ∧
    shiftBlock (1/2) bW1 ∈ remove_shapes_line_scene [] (1/2) [bW1, bW2] := by
  have hmem : bW1 ∈ deleteIds [] [bW1, bW2] := by simp [deleteIds]
  have hlt : (1/2 : ℚ) < bW1.y := by norm_num [bW1]
  have h := (claim5_gravity_shift [] (1/2) [bW1, bW2]).1 bW1 hmem hlt
  exact ⟨hmem, hlt, h.1, h.2⟩

/-- C7: clearing a line awards floor(100 * (10 - speed_multiplier * 5))
points (the source's `int()` truncation agrees with the floor whenever
the points multiplier is non-negative, which holds for every reachable
multiplier), doubled exactly when all shapes of the row carry the same
shader, and the award is added to the running score. -/
theorem claim7_scoring (ids : List ℕ) (lineY : ℚ) (single : Bool)
    (st : SweepState) (h : 0 ≤ 10 - st.speed * 5) :
    ((remove_shapes_line ids lineY single st).points =
      st.points + (if single then 2 * ⌊(100 * (10 - st.speed * 5) : ℚ)⌋
                   else ⌊(100 * (10 - st.speed * 5) : ℚ)⌋)) ∧
    (∀ (h0 : ℕ) (t : List ℕ),
      (check_shapes_have_same_shader (h0 :: t) = true ↔ ∀ a ∈ h0 :: t, a = h0)) := by
  constructor
  · have hq : ¬ ((100 * (10 - st.speed * 5) : ℚ) < 0) :=
      not_lt.mpr (mul_nonneg (by norm_num) h)
    simp only [remove_shapes_line, pyInt]
    rw [if_neg hq]
  · intro h0 t
    simp only [check_shapes_have_same_shader, List.all_eq_true, beq_iff_eq]
    constructor
    · intro H a ha
      rcases List.mem_cons.mp ha with rfl | ha2
      · rfl
      · exact H a ha2
    · intro H a ha
      exact H a (List.mem_cons_of_mem _ ha)

theorem claim7_witness :
    (0 : ℚ) ≤ 10 - (0.3 : ℚ) * 5 ∧
    (remove_shapes_line [] 0 true ⟨[], 0, 0.3, 0⟩).points =
      0 + (if true then 2 * ⌊(100 * (10 - (0.3 : ℚ) * 5) : ℚ)⌋
           else ⌊(100 * (10 - (0.3 : ℚ) * 5) : ℚ)⌋) :=
  ⟨by norm_num, (claim7_scoring [] 0 true ⟨[], 0, 0.3, 0⟩ (by norm_num)).1⟩

/-- C8 counterexample: inserting a block of figure 2 at a cell already
holding a record of figure 1 succeeds and silently replaces the stored
record; no failure occurs. -/
theorem claim8_counterexample :
    lookupCell (dictInsert [((0, 0), ⟨1, 10⟩)] (0, 0) ⟨2, 20⟩) (0, 0) =
      some ⟨2, 20⟩ ∧ (⟨2, 20⟩ : CellInfo) ≠ ⟨1, 10⟩ := by
  refine ⟨by simp [dictInsert, lookupCell], by decide⟩

/-- C8 amended: a grid insert at an already-occupied cell silently
replaces the stored record (the previous occupant is discarded), it
never fails. -/
theorem claim8_amended (d : LockedCells) (c : Cell) (v : CellInfo) :
    lookupCell (dictInsert d c v) c = some v := by
  induction d with
  | nil => simp [dictInsert, lookupCell]
  | cons kv d ih =>
    by_cases h : kv.1 = c
    · simp [dictInsert, h, lookupCell]
    · simp [dictInsert, h, lookupCell, ih]

theorem move_figure_go_next (f : Figure) (dir : Direction) (tv : ℚ)
    (lk : LockedCells) :
    (move_figure f dir tv lk).go_next_figure =
      (!(move_figure f dir tv lk).allowed &&
       !(move_figure f dir tv lk).x_axis_collision) := by
  simp only [move_figure]

/-- C6 counterexample: the rotation of `figW6` by 90 degrees is
rejected with the block's row changed (0.5 to 2.5), yet the rejection is
classified as an x-axis collision and does not lock the figure, because
the out-of-horizontal-range branch never compares rows. -/
theorem claim6_counterexample :
    (move_figure figW6 .rotateZ 90 []).allowed = false ∧
    (centroid (setAttr figW6 .rotateZ (getAttr figW6 .rotateZ + 90)) ⟨5, 0.5, -1.5⟩).2
      ≠ (centroid figW6 ⟨5, 0.5, -1.5⟩).2 ∧
    (move_figure figW6 .rotateZ 90 []).x_axis_collision = true ∧
    (move_figure figW6 .rotateZ 90 []).go_next_figure = false := by
  norm_num [figW6, move_figure, check_figure_update_allowed, collides, lookupCell,
    centroid, rotZ, setAttr, getAttr, min_y, max_y, min_x, max_x,
    update_locked_cells_list, get_all_child_shapes_xy_centroids_list]

/-- C6 amended: a rejection is classified as horizontal exactly when
the deciding block either collides with its row unchanged or lies
inside the vertical range but outside the horizontal range; it is
classified as vertical exactly when the deciding block either collides
with its row changed or lies outside the vertical range (so an
out-of-horizontal-range block is horizontal even when its row changed);
and a rejected move locks the figure if and only if the rejection was
not an x-axis collision. -/
theorem claim6_amended (mesh : ℕ) (locked : LockedCells) (blocks : List BlockPair)
    (f : Figure) (dir : Direction) (tv : ℚ) (lk : LockedCells) :
    ((check_figure_update_allowed mesh locked blocks) = (false, true) →
      ∃ b ∈ blocks,
        (collides mesh locked b.cur = true ∧ b.cur.2 = b.prev.2) ∨
        (collides mesh locked b.cur = false ∧
          (min_y < b.cur.2 ∧ b.cur.2 < max_y) ∧
          ¬ (min_x < b.cur.1 ∧ b.cur.1 < max_x))) ∧
    ((check_figure_update_allowed mesh locked blocks) = (false, false) →
      ∃ b ∈ blocks,
        (collides mesh locked b.cur = true ∧ b.cur.2 ≠ b.prev.2) ∨
        (collides mesh locked b.cur = false ∧
          ¬ (min_y < b.cur.2 ∧ b.cur.2 < max_y))) ∧
    ((move_figure f dir tv lk).allowed = false →
      ((move_figure f dir tv lk).go_next_figure = true ↔
        (move_figure f dir tv lk).x_axis_collision = false)) := by
  refine ⟨?_, ?_, ?_⟩
  · induction blocks with
    | nil => intro h; simp [check_figure_update_allowed] at h
    | cons b0 rest ih =>
      intro h
      rw [check_figure_update_allowed] at h
      split at h
      next hcol =>
        split at h
        next hrow => exact ⟨b0, List.mem_cons_self b0 rest, Or.inl ⟨hcol, hrow⟩⟩
        next hrow => simp at h
      next hcol =>
        split at h
        next hy => simp at h
        next hy =>
          rw [not_not] at hy
          split at h
          next hx =>
            exact ⟨b0, List.mem_cons_self b0 rest,
              Or.inr ⟨Bool.not_eq_true _ ▸ Bool.of_not_eq_true hcol, hy, hx⟩⟩
          next hx =>
            obtain ⟨b, hb, hprop⟩ := ih h
            exact ⟨b, List.mem_cons_of_mem b0 hb, hprop⟩
  · induction blocks with
    | nil => intro h; simp [check_figure_update_allowed] at h
    | cons b0 rest ih =>
      intro h
      rw [check_figure_update_allowed] at h
      split at h
      next hcol =>
        split at h
        next hrow => simp at h
        next hrow => exact ⟨b0, List.mem_cons_self b0 rest, Or.inl ⟨hcol, hrow⟩⟩
      next hcol =>
        split at h
        next hy =>
          exact ⟨b0, List.mem_cons_self b0 rest,
            Or.inr ⟨Bool.of_not_eq_true hcol, hy⟩⟩
        next hy =>
          split at h
          next hx => simp at h
          next hx =>
            obtain ⟨b, hb, hprop⟩ := ih h
            exact ⟨b, List.mem_cons_of_mem b0 hb, hprop⟩
  · intro hal
    rw [move_figure_go_next, hal]
    cases hx : (move_figure f dir tv lk).x_axis_collision <;> simp [hx]

theorem claim6_witness :
    ∃ b ∈ [BlockPair.mk (4.5, 0.5) (5.5, 2.5)],
      (collides 0 [] b.cur = true ∧ b.cur.2 = b.prev.2) ∨
      (collides 0 [] b.cur = false ∧ (min_y < b.cur.2 ∧ b.cur.2 < max_y) ∧
        ¬ (min_x < b.cur.1 ∧ b.cur.1 < max_x)) :=
  (claim6_amended 0 [] [⟨(4.5, 0.5), (5.5, 2.5)⟩] figW2 .translateX 0 []).1
    (by norm_num [check_figure_update_allowed, collides, lookupCell,
      min_x, max_x, min_y, max_y])

/-- C9: when a new figure is due and the spawn cell is occupied by a
locked block, the loop iteration sets the game-over flag and breaks,
without spawning a figure or touching the scene, and without raising
any error. -/
theorem claim9_spawn_blocked_game_over (mv : GameState → GameState) (newFig : ℕ)
    (gs : GameState) (h1 : gs.go_next = true)
    (h2 : check_default_positions_are_locked (sceneDict gs.scene) = false) :
    (continue_game_iter mv newFig gs).state.game_over = true ∧
    (continue_game_iter mv newFig gs).loops_again = false ∧
    (continue_game_iter mv newFig gs).state.active = gs.active ∧
    (continue_game_iter mv newFig gs).state.scene = gs.scene ∧
    (continue_game_iter mv newFig gs).gravity_moved = false := by
  simp only [continue_game_iter]
  split
  next hc =>
    rw [if_pos ⟨h1, h2⟩]
    exact ⟨rfl, rfl, rfl, rfl, rfl⟩
  next hc =>
    rw [if_pos ⟨h1, h2⟩]
    exact ⟨rfl, rfl, rfl, rfl, rfl⟩

theorem claim9_witness :
    gsW9.go_next = true ∧
    check_default_positions_are_locked (sceneDict gsW9.scene) = false ∧
    (continue_game_iter id 0 gsW9).state.game_over = true ∧
    (continue_game_iter id 0 gsW9).loops_again = false := by
  have h1 : gsW9.go_next = true := rfl
  have h2 : check_default_positions_are_locked (sceneDict gsW9.scene) = false := by
    norm_num [gsW9, sceneDict, dictInsert, check_default_positions_are_locked]
  have h := claim9_spawn_blocked_game_over id 0 gsW9 h1 h2
  exact ⟨h1, h2, h.1, h.2.1⟩

theorem pyInt_mono {q r : ℚ} (h : q ≤ r) : pyInt q ≤ pyInt r := by
  unfold pyInt
  split
  next hq =>
    split
    next hr => exact Int.ceil_mono h
    next hr =>
      have hle1 : ⌈q⌉ ≤ 0 := by
        have := Int.ceil_mono (le_of_lt hq)
        simpa using this
      have hle2 : (0 : ℤ) ≤ ⌊r⌋ := Int.floor_nonneg.mpr (not_lt.mp hr)
      omega
  next hq =>
    split
    next hr => exact absurd (lt_of_le_of_lt h hr) hq
    next hr => exact Int.floor_mono h

theorem pyInt_intCast (n : ℤ) : pyInt (n : ℚ) = n := by
  unfold pyInt
  split <;> simp

theorem trigger_false (c : ℕ) (s : ℚ) (h : pyInt (30 * s) ≤ 0) :
    ¬ (((c + 1 : ℕ) : ℤ) = pyInt (30 * s)) := by
  intro hEq
  have hpos : (0 : ℤ) < ((c + 1 : ℕ) : ℤ) := by exact_mod_cast Nat.succ_pos c
  omega

theorem iter_no_gravity (mv : GameState → GameState) (newFig : ℕ)
    (gs : GameState) (h : pyInt (30 * gs.speed) ≤ 0) :
    (continue_game_iter mv newFig gs).gravity_moved = false ∧
    pyInt (30 * (continue_game_iter mv newFig gs).state.speed) ≤ 0 := by
  have hstep : ∀ s2 : ℚ, s2 ≤ gs.speed → pyInt (30 * s2) ≤ 0 := fun s2 hle =>
    le_trans (pyInt_mono (by linarith)) h
  simp only [continue_game_iter]
  split
  next hc =>
    have h1 : pyInt (30 * (gs.speed - 0.2)) ≤ 0 := hstep _ (by linarith)
    split
    next hgo => exact ⟨rfl, h1⟩
    next hgo =>
      split
      next hnext =>
        rw [if_neg (trigger_false _ _ h1)]
        exact ⟨rfl, h1⟩
      next hnext =>
        rw [if_neg (trigger_false _ _ h1)]
        exact ⟨rfl, h1⟩
  next hc =>
    split
    next hgo => exact ⟨rfl, h⟩
    next hgo =>
      split
      next hnext =>
        rw [if_neg (trigger_false _ _ h)]
        exact ⟨rfl, h⟩
      next hnext =>
        rw [if_neg (trigger_false _ _ h)]
        exact ⟨rfl, h⟩

/-- C10: once the drop-tick target int(30 * speed_multiplier) is
non-positive, no later iteration of the game loop ever satisfies the
gravity condition again (the counter is always at least 1 when
compared), so no automatic downward move is ever issued for the rest of
the session. -/
theorem claim10_no_gravity_after_zero (mv : GameState → GameState) (newFig : ℕ)
    (gs : GameState) (h : pyInt (30 * gs.speed) ≤ 0) (n : ℕ) :
    (continue_game_iter mv newFig (run_iters mv newFig n gs)).gravity_moved = false := by
  induction n generalizing gs with
  | zero => exact (iter_no_gravity mv newFig gs h).1
  | succ n ih =>
    rw [run_iters]
    exact ih _ (iter_no_gravity mv newFig gs h).2

theorem claim10_witness :
    pyInt (30 * gsW10.speed) ≤ 0 ∧
    (continue_game_iter id 0 (run_iters id 0 0 gsW10)).gravity_moved = false := by
  have h : pyInt (30 * gsW10.speed) ≤ 0 := by
    have e : (30 * gsW10.speed) = ((-3 : ℤ) : ℚ) := by norm_num [gsW10]
    rw [e, pyInt_intCast]
    decide
  exact ⟨h, claim10_no_gravity_after_zero id 0 gsW10 h 0⟩

theorem mem_firstOccur : ∀ (l : List ℚ) (a : ℚ), a ∈ firstOccur l ↔ a ∈ l := by
  intro l
  induction l with
  | nil => intro a; simp [firstOccur]
  | cons y rest ih =>
    intro a
    simp only [firstOccur, List.mem_cons, List.mem_filter, ih]
    by_cases hay : a = y
    · simp [hay]
    · simp [hay]

theorem firstOccur_nodup : ∀ l : List ℚ, (firstOccur l).Nodup := by
  intro l
  induction l with
  | nil => exact List.nodup_nil
  | cons y rest ih =>
    rw [firstOccur]
    refine List.nodup_cons.mpr ⟨?_, ih.filter _⟩
    intro hmem
    have := (List.mem_filter.mp hmem).2
    simp at this

theorem mem_rowKeys (s : Scene) (y : ℚ) :
    y ∈ rowKeys s ↔ ∃ b ∈ s, b.y = y := by
  unfold rowKeys
  rw [mem_firstOccur]
  simp [List.mem_map, eq_comm]

theorem exists_of_idsAtRow_ne_nil :
    ∀ (s : Scene) (y : ℚ), idsAtRow s y ≠ [] → ∃ b ∈ s, b.y = y := by
  intro s
  induction s with
  | nil => intro y h; exact absurd rfl h
  | cons b s ih =>
    intro y h
    rw [idsAtRow] at h
    split at h
    next hby => exact ⟨b, List.mem_cons_self b s, hby⟩
    next hby =>
      obtain ⟨b2, hb2, hy2⟩ := ih y h
      exact ⟨b2, List.mem_cons_of_mem b hb2, hy2⟩

theorem mem_idsAtRow_sub :
    ∀ (s : Scene) (y : ℚ) (x : ℕ), x ∈ idsAtRow s y → x ∈ s.map Block.id := by
  intro s
  induction s with
  | nil => intro y x h; simp [idsAtRow] at h
  | cons b s ih =>
    intro y x h
    rw [idsAtRow] at h
    rw [List.map_cons, List.mem_cons]
    split at h
    next hby =>
      rcases List.mem_cons.mp h with h1 | h2
      · exact Or.inl h1
      · exact Or.inr (ih y x h2)
    next hby => exact Or.inr (ih y x h)

theorem id_mem_idsAtRow :
    ∀ (s : Scene) (b : Block), b ∈ s → b.y = y0 → b.id ∈ idsAtRow s y0 := by
  intro s
  induction s with
  | nil => intro b hb; exact absurd hb (List.not_mem_nil b)
  | cons a s ih =>
    intro b hb hby
    rw [idsAtRow]
    rcases List.mem_cons.mp hb with rfl | hbs
    · rw [if_pos hby]
      exact List.mem_cons_self _ _
    · split
      next hay => exact List.mem_cons_of_mem _ (ih b hbs hby)
      next hay => exact ih b hbs hby

theorem y_eq_of_id_mem :
    ∀ (s : Scene), (s.map Block.id).Nodup →
      ∀ b ∈ s, ∀ y : ℚ, b.id ∈ idsAtRow s y → b.y = y := by
  intro s
  induction s with
  | nil => intro _ b hb; exact absurd hb (List.not_mem_nil b)
  | cons a s ih =>
    intro hnodup b hb y hmem
    rw [List.map_cons, List.nodup_cons] at hnodup
    rw [idsAtRow] at hmem
    rcases List.mem_cons.mp hb with rfl | hbs
    · split at hmem
      next hay => exact hay
      next hay =>
        exact absurd (mem_idsAtRow_sub s y b.id hmem) hnodup.1
    · split at hmem
      next hay =>
        rcases List.mem_cons.mp hmem with hEq | h2
        · have : b.id ∈ s.map Block.id :=
            List.mem_map_of_mem Block.id hbs
          rw [hEq] at this
          exact absurd this hnodup.1
        · exact ih hnodup.2 b hbs y h2
      next hay => exact ih hnodup.2 b hbs y hmem

theorem foldl_congr_skip {β : Type} (step : β → ℚ → β) :
    ∀ (keys : List ℚ) (st0 : β),
      (∀ y ∈ keys, ∀ acc, step acc y = acc) → keys.foldl step st0 = st0 := by
  intro keys
  induction keys with
  | nil => intro st0 _; rfl
  | cons y ks ih =>
    intro st0 h
    rw [List.foldl_cons, h y (List.mem_cons_self y ks) st0]
    exact ih st0 (fun z hz acc => h z (List.mem_cons_of_mem y hz) acc)

theorem foldl_single {β : Type} (step : β → ℚ → β) (l1 l2 : List ℚ) (c : ℚ)
    (st0 : β) (h1 : ∀ y ∈ l1, ∀ acc, step acc y = acc)
    (h2 : ∀ y ∈ l2, ∀ acc, step acc y = acc) :
    (l1 ++ c :: l2).foldl step st0 = step st0 c := by
  rw [List.foldl_append, foldl_congr_skip step l1 st0 h1, List.foldl_cons]
  exact foldl_congr_skip step l2 (step st0 c) h2

theorem sweep_single (st : SweepState) (c : ℚ)
    (hc : (idsAtRow st.scene c).length = 10)
    (huniq : ∀ z, (idsAtRow st.scene z).length = 10 → z = c) :
    remove_complete_lines st =
      remove_shapes_line (idsAtRow st.scene c) c
        (check_shapes_have_same_shader (shadersAtRow st.scene c)) st := by
  have hcne : idsAtRow st.scene c ≠ [] := by
    intro h0
    rw [h0] at hc
    simp at hc
  obtain ⟨b, hb, hby⟩ := exists_of_idsAtRow_ne_nil st.scene c hcne
  have hmem : c ∈ rowKeys st.scene := (mem_rowKeys st.scene c).mpr ⟨b, hb, hby⟩
  obtain ⟨l1, l2, hsplit⟩ := List.append_of_mem hmem
  have hnodup : (rowKeys st.scene).Nodup := firstOccur_nodup _
  rw [hsplit] at hnodup
  rw [List.nodup_append] at hnodup
  have hc1 : c ∉ l1 := fun hmem1 =>
    (hnodup.2.2 hmem1) (List.mem_cons_self c l2)
  have hc2 : c ∉ l2 := (List.nodup_cons.mp hnodup.2.1).1
  have hskip : ∀ S : List ℚ, c ∉ S → ∀ y ∈ S, ∀ acc : SweepState,
      (if (idsAtRow st.scene y).length = 10 then
        remove_shapes_line (idsAtRow st.scene y) y
          (check_shapes_have_same_shader (shadersAtRow st.scene y)) acc
      else acc) = acc := by
    intro S hS y hy acc
    have hyne : y ≠ c := fun hEq => hS (hEq ▸ hy)
    have hnot : ¬ (idsAtRow st.scene y).length = 10 :=
      fun h10 => hyne (huniq y h10)
    rw [if_neg hnot]
  unfold remove_complete_lines
  rw [hsplit, foldl_single _ l1 l2 c st (hskip l1 hc1) (hskip l2 hc2)]
  exact if_pos hc

theorem shiftAbove_cons (c : ℚ) (b : Block) (s : Scene) :
    shiftAbove c (b :: s) = shiftBlock c b :: shiftAbove c s := rfl

theorem shiftBlock_y_of_lt {c : ℚ} {b : Block} (hlt : c < b.y) :
    (shiftBlock c b).y = b.y - 1 := by
  simp [shiftBlock, hlt]

theorem shiftBlock_y_of_not_lt {c : ℚ} {b : Block} (hlt : ¬ c < b.y) :
    (shiftBlock c b).y = b.y := by
  simp [shiftBlock, hlt]

theorem shiftBlock_x (c : ℚ) (b : Block) : (shiftBlock c b).x = b.x := by
  unfold shiftBlock
  split <;> rfl

theorem cells_after_le (L : List ℕ) (c y : ℚ) (hyc : y + 1 ≤ c) :
    ∀ s : Scene, (∀ b ∈ s, (b.id ∈ L ↔ b.y = c)) →
      cellsAtRow (shiftAbove c (deleteIds L s)) y = cellsAtRow s y := by
  intro s
  induction s with
  | nil => intro _; rfl
  | cons b s ih =>
    intro hL
    have hLb := hL b (List.mem_cons_self b s)
    have hLs : ∀ b2 ∈ s, (b2.id ∈ L ↔ b2.y = c) :=
      fun b2 hb2 => hL b2 (List.mem_cons_of_mem b hb2)
    rw [deleteIds]
    by_cases hid : b.id ∈ L
    · rw [if_pos hid]
      have hbc : b.y = c := hLb.mp hid
      have hbny : ¬ (b.y = y) := by rw [hbc]; intro hEq; linarith
      conv_rhs => rw [cellsAtRow]
      rw [if_neg hbny]
      exact ih hLs
    · rw [if_neg hid, shiftAbove_cons]
      conv_lhs => rw [cellsAtRow]
      by_cases hlt : c < b.y
      · rw [shiftBlock_y_of_lt hlt]
        have hne1 : ¬ (b.y - 1 = y) := by intro hEq; linarith
        rw [if_neg hne1]
        have hne2 : ¬ (b.y = y) := by intro hEq; linarith
        conv_rhs => rw [cellsAtRow]
        rw [if_neg hne2]
        exact ih hLs
      · rw [shiftBlock_y_of_not_lt hlt]
        conv_rhs => rw [cellsAtRow]
        by_cases hby : b.y = y
        · rw [if_pos hby, if_pos hby, shiftBlock_x, ih hLs]
        · rw [if_neg hby, if_neg hby]
          exact ih hLs

theorem cells_after_ge (L : List ℕ) (c y : ℚ) (hcy : c ≤ y) :
    ∀ s : Scene, (∀ b ∈ s, (b.id ∈ L ↔ b.y = c)) →
      cellsAtRow (shiftAbove c (deleteIds L s)) y
        = (cellsAtRow s (y + 1)).map (fun p => (p.1, p.2 - 1)) := by
  intro s
  induction s with
  | nil => intro _; rfl
  | cons b s ih =>
    intro hL
    have hLb := hL b (List.mem_cons_self b s)
    have hLs : ∀ b2 ∈ s, (b2.id ∈ L ↔ b2.y = c) :=
      fun b2 hb2 => hL b2 (List.mem_cons_of_mem b hb2)
    rw [deleteIds]
    by_cases hid : b.id ∈ L
    · rw [if_pos hid]
      have hbc : b.y = c := hLb.mp hid
      have hbny : ¬ (b.y = y + 1) := by rw [hbc]; intro hEq; linarith
      conv_rhs => rw [cellsAtRow]
      rw [if_neg hbny]
      exact ih hLs
    · rw [if_neg hid]
      have hbnc : b.y ≠ c := fun hEq => hid (hLb.mpr hEq)
      rw [shiftAbove_cons]
      conv_lhs => rw [cellsAtRow]
      by_cases hlt : c < b.y
      · rw [shiftBlock_y_of_lt hlt]
        conv_rhs => rw [cellsAtRow]
        by_cases hby : b.y = y + 1
        · have h1 : b.y - 1 = y := by linarith
          rw [if_pos h1, if_pos hby, List.map_cons, ih hLs, h1]
          simp [shiftBlock_x]
        · have h1 : ¬ (b.y - 1 = y) := fun hEq => hby (by linarith)
          rw [if_neg h1, if_neg hby]
          exact ih hLs
      · rw [shiftBlock_y_of_not_lt hlt]
        have hblt : b.y < c := lt_of_le_of_ne (not_lt.mp hlt) hbnc
        have hne2 : ¬ (b.y = y) := by intro hEq; linarith
        have hne3 : ¬ (b.y = y + 1) := by intro hEq; linarith
        rw [if_neg hne2]
        conv_rhs => rw [cellsAtRow]
        rw [if_neg hne3]
        exact ih hLs

theorem cells_after_mid (L : List ℕ) (c y : ℚ) (hyc : y < c) (hcy : c < y + 1)
    (m : ℤ) (hm : c = (m : ℚ) + 1/2) :
    ∀ s : Scene, (∀ b ∈ s, (b.id ∈ L ↔ b.y = c)) →
      (∀ b ∈ s, ∃ k : ℤ, b.y = (k : ℚ) + 1/2) →
      cellsAtRow (shiftAbove c (deleteIds L s)) y = [] := by
  intro s
  induction s with
  | nil => intro _ _; rfl
  | cons b s ih =>
    intro hL hg
    have hLb := hL b (List.mem_cons_self b s)
    have hLs : ∀ b2 ∈ s, (b2.id ∈ L ↔ b2.y = c) :=
      fun b2 hb2 => hL b2 (List.mem_cons_of_mem b hb2)
    have hgs : ∀ b2 ∈ s, ∃ k : ℤ, b2.y = (k : ℚ) + 1/2 :=
      fun b2 hb2 => hg b2 (List.mem_cons_of_mem b hb2)
    obtain ⟨k, hk⟩ := hg b (List.mem_cons_self b s)
    have hbny : ¬ (b.y = y) := by
      intro hEq
      rw [hk] at hEq
      rw [hm, ← hEq] at hyc hcy
      have h1i : k < m := by
        have h1 : (k : ℚ) < m := by linarith
        exact_mod_cast h1
      have h2i : m < k + 1 := by
        have h2 : (m : ℚ) < k + 1 := by linarith
        exact_mod_cast h2
      omega
    have hbny1 : ¬ (b.y = y + 1) := by
      intro hEq
      rw [hk] at hEq
      have hy2 : y = (k : ℚ) - 1 + 1/2 := by linarith
      rw [hm, hy2] at hyc hcy
      have h1i : k ≤ m := by
        have h1 : (k : ℚ) < m + 1 := by linarith
        have h1c : k < m + 1 := by exact_mod_cast h1
        omega
      have h2i : m < k := by
        have h2 : (m : ℚ) < k := by linarith
        exact_mod_cast h2
      omega
    rw [deleteIds]
    by_cases hid : b.id ∈ L
    · rw [if_pos hid]
      exact ih hLs hgs
    · rw [if_neg hid, shiftAbove_cons, cellsAtRow]
      by_cases hlt : c < b.y
      · rw [shiftBlock_y_of_lt hlt]
        have hne1 : ¬ (b.y - 1 = y) := fun hEq => hbny1 (by linarith)
        rw [if_neg hne1]
        exact ih hLs hgs
      · rw [shiftBlock_y_of_not_lt hlt, if_neg hbny]
        exact ih hLs hgs

theorem distinctCount_map_inj (f : Cell → Cell)
    (hf : ∀ a b : Cell, f a = f b → a = b) :
    ∀ l : List Cell, distinctCount (l.map f) = distinctCount l := by
  intro l
  induction l with
  | nil => rfl
  | cons c l ih =>
    rw [List.map_cons, distinctCount, distinctCount, ih]
    have hmem : f c ∈ l.map f ↔ c ∈ l := by
      constructor
      · intro h
        obtain ⟨a, ha, hfa⟩ := List.mem_map.mp h
        rw [← hf a c hfa]
        exact ha
      · exact fun h => List.mem_map_of_mem f h
    by_cases hc : c ∈ l
    · rw [if_pos hc, if_pos (hmem.mpr hc)]
    · rw [if_neg hc, if_neg (fun hx => hc (hmem.mp hx))]

theorem mem_cellsAtRow_sub :
    ∀ (s : Scene) (y : ℚ) (p : Cell),
      p ∈ cellsAtRow s y → p ∈ s.map (fun b => (b.x, b.y)) := by
  intro s
  induction s with
  | nil => intro y p h; simp [cellsAtRow] at h
  | cons b s ih =>
    intro y p h
    rw [cellsAtRow] at h
    rw [List.map_cons, List.mem_cons]
    split at h
    next hby =>
      rcases List.mem_cons.mp h with h1 | h2
      · exact Or.inl h1
      · exact Or.inr (ih y p h2)
    next hby => exact Or.inr (ih y p h)

theorem ids_len_cells :
    ∀ (s : Scene), (s.map (fun b => (b.x, b.y))).Nodup →
      ∀ y : ℚ, occupiedCellsInRow s y = (idsAtRow s y).length := by
  intro s
  induction s with
  | nil => intro _ y; rfl
  | cons b s ih =>
    intro hnodup y
    rw [List.map_cons, List.nodup_cons] at hnodup
    unfold occupiedCellsInRow at *
    rw [cellsAtRow, idsAtRow]
    by_cases hby : b.y = y
    · rw [if_pos hby, if_pos hby, distinctCount, List.length_cons]
      have hnm : ¬ ((b.x, b.y) ∈ cellsAtRow s y) :=
        fun hmem => hnodup.1 (mem_cellsAtRow_sub s y _ hmem)
      rw [if_neg hnm, ih hnodup.2 y]
      omega
    · rw [if_neg hby, if_neg hby]
      exact ih hnodup.2 y

theorem len_after (L : List ℕ) (c y : ℚ) (s : Scene)
    (hL : ∀ b ∈ s, (b.id ∈ L ↔ b.y = c))
    (hg : ∀ b ∈ s, ∃ k : ℤ, b.y = (k : ℚ) + 1/2)
    (m : ℤ) (hm : c = (m : ℚ) + 1/2)
    (hcells : (s.map (fun b => (b.x, b.y))).Nodup) :
    distinctCount (cellsAtRow (shiftAbove c (deleteIds L s)) y) =
      if y + 1 ≤ c then (idsAtRow s y).length
      else if c ≤ y then (idsAtRow s (y + 1)).length
      else 0 := by
  by_cases h1 : y + 1 ≤ c
  · rw [if_pos h1, cells_after_le L c y h1 s hL]
    exact ids_len_cells s hcells y
  · rw [if_neg h1]
    by_cases h2 : c ≤ y
    · rw [if_pos h2, cells_after_ge L c y h2 s hL]
      have hinj : ∀ a b : Cell, (a.1, a.2 - 1) = (b.1, b.2 - 1) → a = b := by
        intro a b h
        rw [Prod.mk.injEq] at h
        exact Prod.ext h.1 (by linarith [h.2])
      rw [distinctCount_map_inj _ hinj]
      exact ids_len_cells s hcells (y + 1)
    · rw [if_neg h2]
      rw [cells_after_mid L c y (not_le.mp h2) (not_le.mp h1) m hm s hL hg]
      rfl

/-- C4 counterexample: in `cexScene` the rows 1.5 and 2.5 are both
complete, yet after the sweep the two half-rows above them have been
merged into a single row of exactly 10 occupied cells: clearing row 1.5
first shifts everything down, so the stashed shapes of row 2.5 are
deleted from row 1.5 and the second shift only reaches the blocks that
now lie strictly above 2.5. -/
theorem claim4_counterexample :
    (idsAtRow cexScene 1.5).length = 10 ∧
    (idsAtRow cexScene 2.5).length = 10 ∧
    occupiedCellsInRow (remove_complete_lines cexState).scene 2.5 = 10 := by
  refine ⟨?_, ?_, ?_⟩
  · norm_num [cexScene, cexRow10, xcol, idsAtRow, List.range_succ]
  · norm_num [cexScene, cexRow10, xcol, idsAtRow, List.range_succ]
  · norm_num [cexState, cexScene, cexRow10, xcol, remove_complete_lines, rowKeys,
      firstOccur, idsAtRow, shadersAtRow, check_shapes_have_same_shader,
      remove_shapes_line, remove_shapes_line_scene, shiftAbove, shiftBlock,
      deleteIds, occupiedCellsInRow, cellsAtRow, distinctCount, List.range_succ,
      pyInt]

/-- C4 amended: a row is treated as complete exactly when it holds 10
occupied cells (under the grid invariant the stashed shape count equals
the occupied-cell count), and when at most one row is complete the sweep
leaves no row with exactly 10 occupied cells; with several
simultaneously complete rows the sweep can leave behind a row of exactly
10 occupied cells (see the counterexample). -/
theorem claim4_amended (st : SweepState)
    (hids : (st.scene.map Block.id).Nodup)
    (hcells : (st.scene.map (fun b => (b.x, b.y))).Nodup)
    (hgrid : ∀ b ∈ st.scene, ∃ k : ℤ, b.y = (k : ℚ) + 1/2)
    (hone : ∀ y1 y2 : ℚ, (idsAtRow st.scene y1).length = 10 →
      (idsAtRow st.scene y2).length = 10 → y1 = y2) :
    (∀ y : ℚ, occupiedCellsInRow st.scene y = (idsAtRow st.scene y).length) ∧
    (∀ y : ℚ, occupiedCellsInRow (remove_complete_lines st).scene y ≠ 10) := by
  refine ⟨fun y => ids_len_cells st.scene hcells y, ?_⟩
  by_cases hex : ∃ z : ℚ, (idsAtRow st.scene z).length = 10
  · obtain ⟨c, hc⟩ := hex
    have huniq : ∀ z, (idsAtRow st.scene z).length = 10 → z = c :=
      fun z hz => hone z c hz hc
    rw [sweep_single st c hc huniq]
    intro y
    have hcne : idsAtRow st.scene c ≠ [] := by
      intro h0
      rw [h0] at hc
      simp at hc
    obtain ⟨b0, hb0, hb0y⟩ := exists_of_idsAtRow_ne_nil st.scene c hcne
    obtain ⟨m, hm⟩ := hgrid b0 hb0
    rw [hb0y] at hm
    have hL : ∀ b ∈ st.scene, (b.id ∈ idsAtRow st.scene c ↔ b.y = c) := by
      intro b hb
      exact ⟨fun hmem => y_eq_of_id_mem st.scene hids b hb c hmem,
             fun hby => id_mem_idsAtRow st.scene b hb hby⟩
    show distinctCount
        (cellsAtRow (shiftAbove c (deleteIds (idsAtRow st.scene c) st.scene)) y) ≠ 10
    rw [len_after (idsAtRow st.scene c) c y st.scene hL hgrid m hm hcells]
    by_cases h1 : y + 1 ≤ c
    · rw [if_pos h1]
      intro h10
      have hyc : y = c := huniq y h10
      rw [hyc] at h1
      linarith
    · rw [if_neg h1]
      by_cases h2 : c ≤ y
      · rw [if_pos h2]
        intro h10
        have hyc : y + 1 = c := huniq (y + 1) h10
        rw [← hyc] at h2
        linarith
      · rw [if_neg h2]
        omega
  · push_neg at hex
    have hskip : remove_complete_lines st = st := by
      unfold remove_complete_lines
      apply foldl_congr_skip
      intro y hy acc
      exact if_neg (hex y)
    rw [hskip]
    intro y
    rw [ids_len_cells st.scene hcells y]
    exact hex y

theorem claim4_witness :
    occupiedCellsInRow (remove_complete_lines stW4).scene 0.5 ≠ 10 := by
  have hids : (stW4.scene.map Block.id).Nodup := by decide
  have hcells : (stW4.scene.map (fun b => (b.x, b.y))).Nodup := by
    norm_num [stW4, sceneW4, List.nodup_cons]
  have hgrid : ∀ b ∈ stW4.scene, ∃ k : ℤ, b.y = (k : ℚ) + 1/2 := by
    intro b hb
    simp only [stW4, sceneW4, List.mem_cons, List.not_mem_nil, or_false] at hb
    rcases hb with rfl | rfl | rfl | rfl | rfl | rfl | rfl | rfl | rfl | rfl | rfl <;>
      first
        | (refine ⟨0, ?_⟩; norm_num; done)
        | (refine ⟨1, ?_⟩; norm_num; done)
  have hone : ∀ y1 y2 : ℚ, (idsAtRow stW4.scene y1).length = 10 →
      (idsAtRow stW4.scene y2).length = 10 → y1 = y2 := by
    have key : ∀ y : ℚ, (idsAtRow stW4.scene y).length = 10 → y = 0.5 := by
      intro y hy
      by_cases h05 : (1 / 2 : ℚ) = y
      · rw [← h05]
        norm_num
      · exfalso
        by_cases h15 : (3 / 2 : ℚ) = y
        · rw [← h15] at hy
          norm_num [stW4, sceneW4, idsAtRow] at hy
        · norm_num [stW4, sceneW4, idsAtRow, h05, h15] at hy
    intro y1 y2 h1 h2
    rw [key y1 h1, key y2 h2]
  exact (claim4_amended stW4 hids hcells hgrid hone).2 0.5

end Tetris
